import Mathlib

/-!
Shallow embedding of the `annotate` docstring tooling:
`src/docstring_extractor.py` (class `DocstringExtractor`) and
`src/generate_notes.py` (function `main`).

Machine integers do not occur: every index in the source is a Python `int`
that stays non-negative, so `Nat` with Python's clamping slice semantics is
the faithful model.
-/

namespace Annotate

/-- Python's list slice `xs[a:b]` for non-negative bounds, as used throughout
`_create_note`: out-of-range bounds are clamped, `a ≥ b` gives `[]`. -/
def pySlice (xs : List String) (a b : Nat) : List String :=
  (xs.drop a).take (b - a)

/-- Python's `s.startswith(p)`: `p`'s characters are an initial segment of
`s`'s. -/
def pyStartswith (s p : String) : Bool := p.data.isPrefixOf s.data

/-- Python's `s.endswith(p)`: `p`'s characters are a final segment of
`s`'s. -/
def pyEndswith (s p : String) : Bool := p.data.isSuffixOf s.data

/-- Python truthiness of `ast.get_docstring`'s result (`None` or a `str`):
`if docstring:` is true exactly for a present, non-empty string. -/
def truthy : Option String → Bool
  | some t => t != ""
  | none => false

/-- A note record, as built by `DocstringExtractor._create_note`
(src/docstring_extractor.py lines 123-131). -/
structure Note where
  path : String
  pre : List String
  post : List String
  code : List String
  note : String
  collapsed : Bool
  codeCollapsed : Bool
deriving DecidableEq, Repr

/-- `DocstringExtractor._create_note` (src/docstring_extractor.py lines 81-131).
`source_lines ≠ []` models Python's truthiness test `if source_lines:`
(the extractor always passes a list, which is falsy when empty). -/
def _create_note (path : String) (start endLine : Nat) (docstring : String)
    (title : String) (source_lines : List String) : Note :=
  let note_content := if title ≠ "" then "## " ++ title ++ "\n\n" ++ docstring else docstring
  let code := if source_lines ≠ [] then pySlice source_lines start (endLine + 1) else []
  let pre := if source_lines ≠ [] then pySlice source_lines (start - 2) start else []
  let post := if source_lines ≠ [] then
      pySlice source_lines (endLine + 1) (min source_lines.length (endLine + 3))
    else []
  { path := path, pre := pre, post := post, code := code,
    note := note_content, collapsed := false, codeCollapsed := false }

/-- Kind of a documentable definition node: `ast.FunctionDef`,
`ast.AsyncFunctionDef` or `ast.ClassDef`. -/
inductive NodeKind
  | functionDef
  | asyncFunctionDef
  | classDef
deriving DecidableEq, Repr

/-- The facts `extract_from_file` reads off one definition node of the Python
AST: the node kind and name, `node.lineno` (1-indexed header line),
`ast.get_docstring(node)`, and — when the first body statement is an
`ast.Expr` holding an `ast.Constant` — that statement's `end_lineno`
(1-indexed). The parser itself is the external collaborator of the spec;
only these observations of its output enter the extractor. -/
structure DefNode where
  kind : NodeKind
  name : String
  lineno : Nat
  docstring : Option String
  bodyFirstConstEnd : Option Nat
deriving DecidableEq, Repr

/-- The facts `extract_from_file` reads off `ast.parse`'s result: the module
docstring `ast.get_docstring(tree)` and the definition nodes delivered by
`ast.walk(tree)`, in walk order (nested definitions included: `ast.walk`
yields every node of the tree). -/
structure PyModule where
  docstring : Option String
  walkNodes : List DefNode
deriving DecidableEq, Repr

/-- `start_line = node.lineno - 1` (0-indexed). -/
def node_startLine (n : DefNode) : Nat := n.lineno - 1

/-- `end_line`: the end line of the docstring expression when the parser
reports one (`node.body[0].end_lineno - 1`), else the fallback `start_line`. -/
def node_endLine (n : DefNode) : Nat :=
  match n.bodyFirstConstEnd with
  | some e => e - 1
  | none => n.lineno - 1

/-- The title chosen in src/docstring_extractor.py lines 62-66. -/
def node_title (n : DefNode) : String :=
  match n.kind with
  | .classDef => "Class: " ++ n.name
  | _ => "Function: " ++ n.name

/-- `_generate_key`'s key for counter value `c`. -/
def note_key (c : Nat) : String := "note_" ++ toString c

/-- The `ast.walk` loop of `extract_from_file` (src/docstring_extractor.py
lines 48-70): the counter `c` is `self.note_counter`, threaded through. -/
def extract_defs (fp : String) (sl : List String) :
    List DefNode → Nat → List (String × Note) × Nat
  | [], c => ([], c)
  | n :: rest, c =>
    if truthy n.docstring then
      let r := extract_defs fp sl rest (c + 1)
      ((note_key c,
        _create_note fp (node_startLine n) (node_endLine n) (n.docstring.getD "")
          (node_title n) sl) :: r.1, r.2)
    else
      extract_defs fp sl rest c

/-- `DocstringExtractor.extract_from_file` (src/docstring_extractor.py lines
19-75). `parsed = none` models `ast.parse` raising `SyntaxError`, whereupon
the `except` clause returns the empty dictionary. The returned association
list models the `file_notes` dictionary (its keys are pairwise distinct
fresh counter keys, and insertion order — module note first, then walk
order — is preserved); the second component is the final counter. -/
def extract_from_file (filepath : String) (parsed : Option PyModule)
    (source_lines : List String) (c : Nat) : List (String × Note) × Nat :=
  match parsed with
  | none => ([], c)
  | some tree =>
    if truthy tree.docstring then
      let r := extract_defs filepath source_lines tree.walkNodes (c + 1)
      ((note_key c,
        _create_note filepath 0 0 (tree.docstring.getD "") "Module Documentation"
          source_lines) :: r.1, r.2)
    else
      extract_defs filepath source_lines tree.walkNodes c

/-- One iteration of the loop in `extract_from_directory`
(src/docstring_extractor.py lines 144-150): non-`.py` paths are skipped,
otherwise the file's notes are merged into `all_notes` (fresh distinct keys,
so `dict.update` is an append). -/
def dirStep (parse : String → Option PyModule)
    (acc : List (String × Note) × Nat) (entry : String × List String) :
    List (String × Note) × Nat :=
  if pyEndswith entry.1 ".py" then
    let r := extract_from_file entry.1 (parse (String.intercalate "\n" entry.2))
      entry.2 acc.2
    (acc.1 ++ r.1, r.2)
  else acc

/-- `DocstringExtractor.extract_from_directory` (src/docstring_extractor.py
lines 133-153). `parse` is the external Python parser: content ↦ `some` tree
on success, `none` on `SyntaxError`; the content handed to it is
`'\n'.join(lines)`. -/
def extract_from_directory (parse : String → Option PyModule)
    (source_files : List (String × List String)) (c : Nat) :
    List (String × Note) × Nat :=
  source_files.foldl (dirStep parse) ([], c)

/-- Top-level `extract_docstrings` (src/docstring_extractor.py lines 156-167):
a fresh `DocstringExtractor` starts with `note_counter = 0`. -/
def extract_docstrings (parse : String → Option PyModule)
    (source_files : List (String × List String)) : List (String × Note) :=
  (extract_from_directory parse source_files 0).1

/-- A JSON object as stored in `notes.json`: any subset of the note fields
may be present (`none` models an absent key), `extra` holds any unrelated
fields an entry might carry. Values of the listed fields follow the store
format of the spec (§6). -/
structure NoteDict where
  path? : Option String := none
  pre? : Option (List String) := none
  post? : Option (List String) := none
  code? : Option (List String) := none
  note? : Option String := none
  collapsed? : Option Bool := none
  codeCollapsed? : Option Bool := none
  extra : List (String × String) := []
deriving DecidableEq, Repr

/-- The dictionary `_create_note` returns, viewed as a JSON object: every
field present. -/
def Note.toDict (n : Note) : NoteDict :=
  { path? := some n.path, pre? := some n.pre, post? := some n.post,
    code? := some n.code, note? := some n.note,
    collapsed? := some n.collapsed, codeCollapsed? := some n.codeCollapsed,
    extra := [] }

/-- Python `dict` lookup `m[k]` / `m.get(k)` on an insertion-ordered
association list (a dict holds each key once; lookup finds its entry). -/
def alistFind {α : Type} : List (String × α) → String → Option α
  | [], _ => none
  | p :: m, k => if p.1 = k then some p.2 else alistFind m k

/-- Python `dict` assignment `m[k] = v`: overwrite in place if the key is
present, else append at the end (insertion order preserved). -/
def alistSet {α : Type} : List (String × α) → String → α → List (String × α)
  | [], k, v => [(k, v)]
  | p :: m, k, v => if p.1 = k then (k, v) :: m else p :: alistSet m k v

/-- The classification test of src/generate_notes.py lines 63-73: an existing
entry is appended to the final store exactly when it has a `note` field whose
text does not start with one of the three auto-generated markers. An entry
without a `note` field fails the outer `if 'note' in note:` guard and is
never appended. -/
def keep_manual (n : NoteDict) : Bool :=
  match n.note? with
  | some t =>
    !(pyStartswith t "## Module Documentation" || pyStartswith t "## Class:" ||
      pyStartswith t "## Function:")
  | none => false

/-- The regrouping loop of src/generate_notes.py lines 33-40: the flat
key→note dictionary from extraction becomes `path → [note, ...]`, reading
each note's own `path` field, in iteration order. -/
def regroup (flat : List (String × Note)) : List (String × List NoteDict) :=
  flat.foldl
    (fun acc kv =>
      alistSet acc kv.2.path (((alistFind acc kv.2.path).getD []) ++ [kv.2.toDict]))
    []

/-- One iteration of the merge loop of src/generate_notes.py lines 58-73 over
one `(filepath, note_list)` item of the existing store: ensure the file is
present (empty list if fresh extraction produced nothing for it), then append
every existing note passing the `keep_manual` test, in order. -/
def merge_file (final : List (String × List NoteDict))
    (e : String × List NoteDict) : List (String × List NoteDict) :=
  alistSet final e.1 (((alistFind final e.1).getD []) ++ e.2.filter keep_manual)

/-- The whole merge of src/generate_notes.py lines 51-73: the final store
starts as the fresh per-file notes, then every file of the existing store is
processed in order. -/
def merge_existing (fresh existing : List (String × List NoteDict)) :
    List (String × List NoteDict) :=
  existing.foldl merge_file fresh

/-- Loading the prior store (src/generate_notes.py lines 42-49): `none`
models a missing `notes.json` or one whose read/parse raises inside the
`try` — either way `existing_notes` stays the empty dictionary. -/
def load_existing : Option (List (String × List NoteDict)) →
    List (String × List NoteDict)
  | some s => s
  | none => []

/-- The in-memory pipeline of `main` (src/generate_notes.py lines 30-73):
flat extraction result → regroup by path → merge with the loaded prior
store. -/
def final_store (flat : List (String × Note))
    (prior : Option (List (String × List NoteDict))) :
    List (String × List NoteDict) :=
  merge_existing (regroup flat) (load_existing prior)

/-! ### Characterization of the extractor's output

The key counter only influences the synthetic keys: the note values are a
pure function of the file path, the parse result and the source lines. -/

/-- The note `extract_from_file` builds for one documented definition node. -/
def note_of_node (fp : String) (sl : List String) (n : DefNode) : Note :=
  _create_note fp (node_startLine n) (node_endLine n) (n.docstring.getD "")
    (node_title n) sl

/-- The sequence of note values `extract_from_file` produces, keys stripped. -/
def notes_of_file (fp : String) (parsed : Option PyModule) (sl : List String) :
    List Note :=
  match parsed with
  | none => []
  | some tree =>
    (if truthy tree.docstring then
      [_create_note fp 0 0 (tree.docstring.getD "") "Module Documentation" sl]
    else [])
      ++ (tree.walkNodes.filter (fun n => truthy n.docstring)).map (note_of_node fp sl)

/-- The sequence of note values a directory run produces, keys stripped. -/
def notes_of_files (parse : String → Option PyModule) :
    List (String × List String) → List Note
  | [] => []
  | (fp, lines) :: rest =>
    (if pyEndswith fp ".py" then
      notes_of_file fp (parse (String.intercalate "\n" lines)) lines
    else [])
      ++ notes_of_files parse rest

theorem extract_defs_map_snd (fp : String) (sl : List String) :
    ∀ (ns : List DefNode) (c : Nat),
      (extract_defs fp sl ns c).1.map Prod.snd
        = (ns.filter (fun n => truthy n.docstring)).map (note_of_node fp sl)
  | [], _ => rfl
  | n :: rest, c => by
    by_cases h : truthy n.docstring
    · simp [extract_defs, h, List.filter_cons, note_of_node,
        extract_defs_map_snd fp sl rest (c + 1)]
    · simp [extract_defs, h, List.filter_cons,
        extract_defs_map_snd fp sl rest c]

theorem extract_from_file_map_snd (fp : String) (parsed : Option PyModule)
    (sl : List String) (c : Nat) :
    (extract_from_file fp parsed sl c).1.map Prod.snd = notes_of_file fp parsed sl := by
  cases parsed with
  | none => rfl
  | some tree =>
    by_cases h : truthy tree.docstring
    · simp [extract_from_file, notes_of_file, h, extract_defs_map_snd]
    · simp [extract_from_file, notes_of_file, h, extract_defs_map_snd]

theorem extract_dir_foldl_map_snd (parse : String → Option PyModule) :
    ∀ (files : List (String × List String)) (acc : List (String × Note)) (c : Nat),
      ((files.foldl (dirStep parse) (acc, c)).1).map Prod.snd
        = acc.map Prod.snd ++ notes_of_files parse files
  | [], acc, c => by simp [notes_of_files]
  | (fp, lines) :: rest, acc, c => by
    by_cases h : pyEndswith fp ".py"
    · have step : dirStep parse (acc, c) (fp, lines)
          = (acc ++ (extract_from_file fp (parse (String.intercalate "\n" lines)) lines c).1,
             (extract_from_file fp (parse (String.intercalate "\n" lines)) lines c).2) := by
        simp [dirStep, h]
      rw [List.foldl_cons, step,
        extract_dir_foldl_map_snd parse rest _ _]
      simp [notes_of_files, h, extract_from_file_map_snd]
    · have step : dirStep parse (acc, c) (fp, lines) = (acc, c) := by
        simp [dirStep, h]
      rw [List.foldl_cons, step, extract_dir_foldl_map_snd parse rest acc c]
      simp [notes_of_files, h]

theorem extract_from_directory_map_snd (parse : String → Option PyModule)
    (files : List (String × List String)) (c : Nat) :
    (extract_from_directory parse files c).1.map Prod.snd = notes_of_files parse files := by
  simpa using extract_dir_foldl_map_snd parse files [] c

/-! ### Dictionary lemmas for the merge -/

theorem alistFind_alistSet_self {α : Type} (m : List (String × α)) (k : String)
    (v : α) : alistFind (alistSet m k v) k = some v := by
  induction m with
  | nil => simp [alistSet, alistFind]
  | cons a m ih =>
    by_cases h : a.1 = k
    · simp [alistSet, alistFind, h]
    · simpa [alistSet, alistFind, h] using ih

theorem alistFind_alistSet_ne {α : Type} (m : List (String × α)) (k k' : String)
    (v : α) (h : k' ≠ k) :
    alistFind (alistSet m k v) k' = alistFind m k' := by
  have hk : ¬ (k = k') := by
    intro e
    exact h e.symm
  induction m with
  | nil => simp [alistSet, alistFind, hk]
  | cons a m ih =>
    by_cases ha : a.1 = k
    · simp [alistSet, alistFind, ha, hk]
    · by_cases hb : a.1 = k'
      · simp [alistSet, alistFind, ha, hb, h]
      · simpa [alistSet, alistFind, ha, hb] using ih

theorem merge_foldl_find_ne (fresh : List (String × List NoteDict))
    (l : List (String × List NoteDict)) (fp : String)
    (h : fp ∉ l.map Prod.fst) :
    alistFind (l.foldl merge_file fresh) fp = alistFind fresh fp := by
  induction l generalizing fresh with
  | nil => rfl
  | cons e rest ih =>
    have h1 : fp ≠ e.1 := by
      intro he
      exact h (by simp [he])
    have h2 : fp ∉ rest.map Prod.fst := by
      intro hm
      exact h (by simp [hm])
    rw [List.foldl_cons, ih _ h2]
    exact alistFind_alistSet_ne _ _ _ _ h1

theorem mem_alistSet {α : Type} {m : List (String × α)} {k : String} {v : α}
    {p : String × α} (hp : p ∈ alistSet m k v) : p ∈ m ∨ p = (k, v) := by
  induction m with
  | nil =>
    right
    simpa [alistSet] using hp
  | cons a m ih =>
    by_cases ha : a.1 = k
    · simp only [alistSet, ha, if_pos, List.mem_cons] at hp
      rcases hp with h1 | h1
      · exact Or.inr h1
      · exact Or.inl (List.mem_cons_of_mem _ h1)
    · simp only [alistSet, ha, if_neg, not_false_iff, List.mem_cons] at hp
      rcases hp with h1 | h1
      · exact Or.inl (by simp [h1])
      · rcases ih h1 with h2 | h2
        · exact Or.inl (List.mem_cons_of_mem _ h2)
        · exact Or.inr h2

theorem alistFind_mem {α : Type} {m : List (String × α)} {k : String} {l : α}
    (h : alistFind m k = some l) : (k, l) ∈ m := by
  induction m with
  | nil => simp [alistFind] at h
  | cons a m ih =>
    obtain ⟨a1, a2⟩ := a
    by_cases ha : a1 = k
    · simp only [alistFind, ha, if_pos] at h
      simp only [Option.some_inj] at h
      subst ha
      subst h
      exact List.mem_cons_self _ _
    · simp only [alistFind, ha, if_neg, not_false_iff] at h
      exact List.mem_cons_of_mem _ (ih h)

/-! ### Claim theorems -/

/-- Claim C6 (confirmed): definition nodes are visited independently and each
documented one yields its own note, with no deduplication or parent
suppression: the extraction of a parsed file has exactly one note per
documented definition node plus one for a (truthy) module docstring — so a
documented class with two documented methods contributes 3 notes, plus 1 if
the module also carries a docstring. -/
theorem documented_nodes_note_count (fp : String) (tree : PyModule)
    (sl : List String) (c : Nat) :
    (extract_from_file fp (some tree) sl c).1.map Prod.snd
      = (if truthy tree.docstring then
          [_create_note fp 0 0 (tree.docstring.getD "") "Module Documentation" sl]
        else [])
        ++ (tree.walkNodes.filter (fun n => truthy n.docstring)).map (note_of_node fp sl)
    ∧ (extract_from_file fp (some tree) sl c).1.length
      = (if truthy tree.docstring then 1 else 0)
        + (tree.walkNodes.filter (fun n => truthy n.docstring)).length := by
  have h := extract_from_file_map_snd fp (some tree) sl c
  constructor
  · exact h
  · have hlen := congrArg List.length h
    rw [List.length_map] at hlen
    rw [hlen]
    by_cases h2 : truthy tree.docstring
    · simp [notes_of_file, h2, Nat.add_comm]
    · simp [notes_of_file, h2]

/-- Claim C8 (confirmed): a syntactically invalid file (the parser yields no
tree) produces the empty note mapping instead of an error, and its presence
in a directory run leaves the run's result — notes and counter — untouched. -/
theorem parse_failure_zero_notes (parse : String → Option PyModule)
    (before after : List (String × List String)) (fp : String)
    (lines : List String) (c : Nat)
    (h : parse (String.intercalate "\n" lines) = none) :
    extract_from_file fp (parse (String.intercalate "\n" lines)) lines c = ([], c)
    ∧ extract_from_directory parse (before ++ (fp, lines) :: after) c
        = extract_from_directory parse (before ++ after) c := by
  constructor
  · rw [h]
    rfl
  · unfold extract_from_directory
    rw [List.foldl_append, List.foldl_append, List.foldl_cons]
    congr 1
    by_cases h2 : pyEndswith fp ".py"
    · simp [dirStep, h2, h, extract_from_file]
    · simp [dirStep, h2]

/-- Witness for C8: a directory run over a parseable-by-nothing collection —
the invalid `bad.py` contributes nothing and its presence does not change the
run. -/
theorem parse_failure_zero_notes_witness :
    (fun _ : String => (none : Option PyModule)) (String.intercalate "\n" ["bad ("])
        = none
    ∧ extract_from_directory (fun _ => none)
          ([("ok.py", ["x"])] ++ ("bad.py", ["bad ("]) :: []) 0
        = extract_from_directory (fun _ => none) ([("ok.py", ["x"])] ++ []) 0 :=
  ⟨rfl,
   (parse_failure_zero_notes (fun _ => none) [("ok.py", ["x"])] [] "bad.py"
     ["bad ("] 0 rfl).2⟩

/-- Claim C9 (confirmed): a missing or unparsable prior note store is treated
as empty and the run continues — the final store is then exactly the fresh
notes regrouped by their `path` fields, with no manual notes. -/
theorem absent_store_final_fresh (flat : List (String × Note)) :
    final_store flat none = regroup flat := rfl

/-- Claim C10 (confirmed): extraction is deterministic up to the synthetic
keys — two extractor runs over the same sources agree on every produced note
value (all of `path`, `pre`, `post`, `code`, `note`, `collapsed`,
`codeCollapsed`), whatever the key counters are. -/
theorem extraction_deterministic (parse : String → Option PyModule)
    (files : List (String × List String)) (c1 c2 : Nat) :
    (extract_from_directory parse files c1).1.map Prod.snd
      = (extract_from_directory parse files c2).1.map Prod.snd := by
  rw [extract_from_directory_map_snd, extract_from_directory_map_snd]

/-- Claim C1 is false as stated: `_create_note` slices
`source_lines[end+1 : min(len, end+3)]`, i.e. at most TWO lines after the
span (matching the source's own comment "2 lines before and after"). Here the
extractor produces a note with `endLine = 3` in the interior of an 8-line
file, four lines follow it, yet `post` has 2 entries, not 3. -/
theorem post_window_not_three :
    (extract_from_file "m.py"
        (some { docstring := none,
                walkNodes := [{ kind := .functionDef, name := "f", lineno := 4,
                                docstring := some "d", bodyFirstConstEnd := some 4 }] })
        ["a", "b", "c", "def f():", "e", "f", "g", "h"] 0).1
      = [("note_0",
          _create_note "m.py" 3 3 "d" "Function: f"
            ["a", "b", "c", "def f():", "e", "f", "g", "h"])]
    ∧ (_create_note "m.py" 3 3 "d" "Function: f"
        ["a", "b", "c", "def f():", "e", "f", "g", "h"]).post = ["e", "f"]
    ∧ ¬ ((_create_note "m.py" 3 3 "d" "Function: f"
        ["a", "b", "c", "def f():", "e", "f", "g", "h"]).post.length = 3) := by
  decide

/-- Claim C1 (amended): `post` contains up to 2 (not 3) source lines
immediately following `endLine`, clipped at file end; for a note whose
endLine has at least two lines after it in the file, `post` has exactly 2
entries. -/
theorem post_window_take_two (p : String) (s e : Nat) (d t : String)
    (sl : List String) :
    (_create_note p s e d t sl).post = (sl.drop (e + 1)).take 2
    ∧ (e + 3 ≤ sl.length → (_create_note p s e d t sl).post.length = 2) := by
  have hpost : (_create_note p s e d t sl).post = (sl.drop (e + 1)).take 2 := by
    by_cases hsl : sl = []
    · simp [_create_note, hsl]
    · simp only [_create_note, hsl, ne_eq, not_false_iff, if_pos, pySlice]
      rcases le_or_lt (e + 3) sl.length with hle | hlt
      · have h2 : min sl.length (e + 3) - (e + 1) = 2 := by omega
        rw [h2]
      · have hm : min sl.length (e + 3) = sl.length := by omega
        rw [hm]
        rw [List.take_of_length_le (by simp), List.take_of_length_le (by simp; omega)]
  refine ⟨hpost, fun h => ?_⟩
  rw [hpost]
  simp only [List.length_take, List.length_drop]
  omega

/-- Witness for C1 (amended) at a concrete interior note: two lines follow
endLine 1 in a 5-line file and `post` has exactly 2 entries. -/
theorem post_window_take_two_witness :
    1 + 3 ≤ (["a", "b", "c", "d", "e"] : List String).length
    ∧ (_create_note "w.py" 0 1 "d" "T" ["a", "b", "c", "d", "e"]).post.length = 2 :=
  ⟨by decide,
   (post_window_take_two "w.py" 0 1 "d" "T" ["a", "b", "c", "d", "e"]).2 (by decide)⟩

/-- Claim C5 (confirmed): `pre`, `code` and `post` are consistent contiguous
slices of the source lines with clamped bounds: each is an infix of
`source_lines`; `pre` is the (at most 2) lines immediately before
`startLine`, empty when `startLine = 0`; `code` is lines
`startLine..endLine`; and `post` is empty when `endLine` is the last line of
the file. -/
theorem context_slices_invariant (p : String) (s e : Nat) (d t : String)
    (sl : List String) :
    (_create_note p s e d t sl).pre <:+: sl
    ∧ (_create_note p s e d t sl).code <:+: sl
    ∧ (_create_note p s e d t sl).post <:+: sl
    ∧ (_create_note p s e d t sl).pre = (sl.take s).drop (s - 2)
    ∧ (_create_note p s e d t sl).pre.length ≤ 2
    ∧ (s = 0 → (_create_note p s e d t sl).pre = [])
    ∧ (_create_note p s e d t sl).code = (sl.take (e + 1)).drop s
    ∧ (e + 1 = sl.length → (_create_note p s e d t sl).post = []) := by
  have slice_within : ∀ a b : Nat, pySlice sl a b <:+: sl := by
    intro a b
    exact ((List.take_prefix _ _).isInfix).trans ((List.drop_suffix _ _).isInfix)
  by_cases hsl : sl = []
  · subst hsl
    simp [_create_note]
  · simp only [_create_note, hsl, ne_eq, not_false_iff, if_pos]
    refine ⟨slice_within _ _, slice_within _ _, slice_within _ _, ?_, ?_, ?_, ?_, ?_⟩
    · rw [List.drop_take]
      rfl
    · simp only [pySlice, List.length_take]
      omega
    · intro hs
      simp [pySlice, hs]
    · rw [List.drop_take]
      rfl
    · intro he
      simp [pySlice, ← he, List.drop_length]

/-- Witness for C5 at a concrete note: `pre` is empty at startLine 0 and
`post` is empty when endLine is the last line. -/
theorem context_slices_invariant_witness :
    (_create_note "w.py" 0 1 "d" "T" ["a", "b"]).pre = []
    ∧ (_create_note "w.py" 0 1 "d" "T" ["a", "b"]).post = [] := by
  have h := context_slices_invariant "w.py" 0 1 "d" "T" ["a", "b"]
  exact ⟨h.2.2.2.2.2.1 rfl, h.2.2.2.2.2.2.2 (by decide)⟩

/-- Claim C7 (confirmed): when the parsed unit carries a (non-empty) leading
module documentation string, the extractor emits exactly one module note: it
is the head of the output, anchored with start 0 and end 0 and titled
"Module Documentation", its text is "## Module Documentation\n\n" followed
by the docstring — and every further note is the note of some definition
node, never a second module note. -/
theorem module_docstring_note (fp : String) (tree : PyModule) (sl : List String)
    (c : Nat) (ds : String) (h1 : tree.docstring = some ds) (h2 : ds ≠ "") :
    (extract_from_file fp (some tree) sl c).1.map Prod.snd
      = _create_note fp 0 0 ds "Module Documentation" sl
          :: (tree.walkNodes.filter (fun n => truthy n.docstring)).map (note_of_node fp sl)
    ∧ (_create_note fp 0 0 ds "Module Documentation" sl).note
        = "## Module Documentation\n\n" ++ ds := by
  have ht : truthy tree.docstring = true := by
    simp [truthy, h1, h2]
  constructor
  · rw [extract_from_file_map_snd]
    simp [notes_of_file, h1, truthy, h2]
  · rfl

/-- Witness for C7: a module with docstring "Mod doc." and no definitions
yields exactly the one module note. -/
theorem module_docstring_note_witness :
    ({ docstring := some "Mod doc.", walkNodes := [] } : PyModule).docstring
        = some "Mod doc."
    ∧ (extract_from_file "a.py"
          (some { docstring := some "Mod doc.", walkNodes := [] }) ["x"] 0).1.map Prod.snd
        = _create_note "a.py" 0 0 "Mod doc." "Module Documentation" ["x"]
            :: (([] : List DefNode).filter (fun n => truthy n.docstring)).map
                (note_of_node "a.py" ["x"]) :=
  ⟨rfl,
   (module_docstring_note "a.py" { docstring := some "Mod doc.", walkNodes := [] }
     ["x"] 0 "Mod doc." rfl (by decide)).1⟩

/-- Claim C2 is false as stated: on the example file the function note is
anchored at the `def` header line 2 through the docstring's end line 3 (the
source sets `start_line = node.lineno - 1`, the header), so no produced note
has `code = ["    \"\"\"Func doc.\"\"\""]` — the claimed function-note `code`
(and likewise its claimed `pre` and `[3,3]` anchor) does not occur. -/
theorem example_extraction_not_as_claimed :
    ¬ ((["    \"\"\"Func doc.\"\"\""] : List String) ∈
        ((extract_from_file "a.py"
            (some { docstring := some "Mod doc.",
                    walkNodes := [{ kind := .functionDef, name := "f", lineno := 3,
                                    docstring := some "Func doc.",
                                    bodyFirstConstEnd := some 4 }] })
            ["\"\"\"Mod doc.\"\"\"", "", "def f():", "    \"\"\"Func doc.\"\"\"",
             "    pass"] 0).1.map Prod.snd).map Note.code) := by
  decide

/-- Claim C2 (amended): extracting `a.py` yields exactly 2 notes — the module
note anchored [0,0] with text "## Module Documentation\n\nMod doc.",
`pre = []`, `post = ["", "def f():"]`, `code` = the docstring line; and a
function note anchored at lines [2,3] (header through docstring end) with
text "## Function: f\n\nFunc doc.", `pre = ["\"\"\"Mod doc.\"\"\"", ""]`,
`code = ["def f():", "    \"\"\"Func doc.\"\"\""]`, `post = ["    pass"]`. -/
theorem example_extraction_result :
    extract_from_file "a.py"
        (some { docstring := some "Mod doc.",
                walkNodes := [{ kind := .functionDef, name := "f", lineno := 3,
                                docstring := some "Func doc.",
                                bodyFirstConstEnd := some 4 }] })
        ["\"\"\"Mod doc.\"\"\"", "", "def f():", "    \"\"\"Func doc.\"\"\"",
         "    pass"] 0
      = ([("note_0",
           { path := "a.py", pre := [], post := ["", "def f():"],
             code := ["\"\"\"Mod doc.\"\"\""],
             note := "## Module Documentation\n\nMod doc.",
             collapsed := false, codeCollapsed := false }),
          ("note_1",
           { path := "a.py", pre := ["\"\"\"Mod doc.\"\"\"", ""],
             post := ["    pass"],
             code := ["def f():", "    \"\"\"Func doc.\"\"\""],
             note := "## Function: f\n\nFunc doc.",
             collapsed := false, codeCollapsed := false })], 2) := by
  decide

/-- Claim C3 is false as stated: an existing entry lacking a `note` field is
not kept — the merge's `if 'note' in note:` guard drops it, so it does not
appear in its file's final sequence. -/
theorem missing_note_field_not_kept :
    ¬ (({ note? := none } : NoteDict) ∈
        ((alistFind (merge_existing [] [("x.py", [{ note? := none }])])
          "x.py").getD [])) := by
  decide

/-- Claim C3 (amended): an existing entry lacking a `note` field is indeed
never classified as auto-generated, but it is not kept either: it is dropped.
Only entries passing the `'note' in note` guard are ever appended, so
whenever every fresh note carries a `note` field (extractor notes always do),
every entry of the final store carries one — entries without the field never
reach it. -/
theorem missing_note_field_dropped (fresh existing : List (String × List NoteDict))
    (h : ∀ p ∈ fresh, ∀ n ∈ p.2, n.note?.isSome = true) :
    ∀ p ∈ merge_existing fresh existing, ∀ n ∈ p.2, n.note?.isSome = true := by
  induction existing generalizing fresh with
  | nil => exact h
  | cons e rest ih =>
    refine ih (merge_file fresh e) ?_
    intro p hp n hn
    rcases mem_alistSet hp with hpm | hpe
    · exact h p hpm n hn
    · rw [hpe] at hn
      rcases List.mem_append.mp hn with hb | hf
      · cases hfind : alistFind fresh e.1 with
        | none =>
          rw [hfind] at hb
          simp at hb
        | some l =>
          rw [hfind] at hb
          simp only [Option.getD_some] at hb
          exact h _ (alistFind_mem hfind) n hb
      · have hkeep := List.of_mem_filter hf
        cases hcn : n.note? with
        | none => simp [keep_manual, hcn] at hkeep
        | some val => simp [hcn]

/-- Witness for C3 (amended): with no fresh notes and an existing store whose
`x.py` holds one entry without a `note` field and one manual note, the merge
output contains only the manual note, which carries a `note` field. -/
theorem missing_note_field_dropped_witness :
    ({ note? := some "keep me" } : NoteDict).note?.isSome = true :=
  missing_note_field_dropped []
    [("x.py", [{ note? := none }, { note? := some "keep me" }])] (by simp)
    ("x.py", [{ note? := some "keep me" }]) (by decide)
    { note? := some "keep me" } (by decide)

/-- Claim C4 (confirmed): for every file of the existing store (keys of a
dictionary are distinct), the final sequence for that file is its fresh
auto-generated notes followed by exactly those existing notes that have a
`note` field whose text does not start (case-sensitively, at position 0)
with "## Module Documentation", "## Class:" or "## Function:", unchanged and
in their original relative order; the entries matching a marker are
dropped. -/
theorem merge_keeps_manual_notes (fresh existing : List (String × List NoteDict))
    (fp : String) (ns : List NoteDict) (h1 : (fp, ns) ∈ existing)
    (h2 : (existing.map Prod.fst).Nodup) :
    alistFind (merge_existing fresh existing) fp
      = some (((alistFind fresh fp).getD []) ++ ns.filter keep_manual) := by
  obtain ⟨l1, l2, rfl⟩ := List.append_of_mem h1
  rw [List.map_append, List.map_cons, List.nodup_append] at h2
  have hfp2 : fp ∉ l2.map Prod.fst := (List.nodup_cons.mp h2.2.1).1
  have hfp1 : fp ∉ l1.map Prod.fst := fun hm => h2.2.2 hm (List.mem_cons_self _ _)
  unfold merge_existing
  rw [List.foldl_append, List.foldl_cons]
  rw [merge_foldl_find_ne _ l2 fp hfp2]
  have hmf : merge_file (List.foldl merge_file fresh l1) (fp, ns)
      = alistSet (List.foldl merge_file fresh l1) fp
        (((alistFind (List.foldl merge_file fresh l1) fp).getD [])
          ++ ns.filter keep_manual) := rfl
  rw [hmf, alistFind_alistSet_self, merge_foldl_find_ne fresh l1 fp hfp1]

/-- Witness for C4: one fresh note for `a.py`; the existing store's `a.py`
has an auto-generated note (dropped), a plain manual note (kept) and an entry
without a `note` field (dropped); the final sequence is fresh note then
manual note. -/
theorem merge_keeps_manual_notes_witness :
    (("a.py", [({ note? := some "## Class: Foo\n\nauto" } : NoteDict),
               { note? := some "plain review comment" },
               { path? := some "a.py" }])
        ∈ [("a.py", [({ note? := some "## Class: Foo\n\nauto" } : NoteDict),
                     { note? := some "plain review comment" },
                     { path? := some "a.py" }])])
    ∧ alistFind
        (merge_existing [("a.py", [{ note? := some "## Function: f\n\nfresh" }])]
          [("a.py", [{ note? := some "## Class: Foo\n\nauto" },
                     { note? := some "plain review comment" },
                     { path? := some "a.py" }])]) "a.py"
      = some [{ note? := some "## Function: f\n\nfresh" },
              { note? := some "plain review comment" }] := by
  refine ⟨by decide, ?_⟩
  exact Eq.trans
    (merge_keeps_manual_notes
      [("a.py", [{ note? := some "## Function: f\n\nfresh" }])]
      [("a.py", [{ note? := some "## Class: Foo\n\nauto" },
                 { note? := some "plain review comment" },
                 { path? := some "a.py" }])]
      "a.py"
      [{ note? := some "## Class: Foo\n\nauto" },
       { note? := some "plain review comment" },
       { path? := some "a.py" }]
      (by decide) (by decide))
    (by decide)

end Annotate
